import Mathlib

/-!
A verification development for the geometric core of the `neta` repository
(`src/packing.rs`, `src/canvas/camera_util.rs`, `src/canvas/picking.rs`).

The Rust code computes with `f32`.  This embedding models the numeric type by
`ℚ` (exact arithmetic): every concrete input used below only involves values on
which `f32` arithmetic is exact (small integers and dyadic fractions, products
well below 2^24), so the control flow of the model coincides with the control
flow of the compiled program on those inputs.  The two places where `f32`
produces irrational values are modelled as follows:

* `f32::sqrt` (used by `Vec2::length` / `Vec2::normalize`) is modelled by
  `ratSqrt`, which agrees with the exact square root whenever the radicand is
  the square of a rational (all concrete witnesses below are in this case);
  no theorem below depends on its value elsewhere.
* comparisons of `length()` values in sort comparators are modelled by
  comparisons of squared lengths, which order identically because
  `Real.sqrt` is strictly monotone on nonnegative reals.

NaN behaviour (claim C5) is modelled separately at the end of the file with an
`Option ℚ` coordinate type (`none` = NaN), reproducing IEEE comparison
semantics (`NaN >= 0` and `NaN <= 0` are both false, `partial_cmp` involving
NaN is `None`).
-/

namespace Packing

/-- 2D vector over exact rationals, modelling bevy's `Vec2` (`f32` pair). -/
structure Vec2 where
  x : ℚ
  y : ℚ
deriving DecidableEq, Repr

instance : Zero Vec2 := ⟨⟨0, 0⟩⟩

instance : Add Vec2 := ⟨fun v w => ⟨v.x + w.x, v.y + w.y⟩⟩

instance : Sub Vec2 := ⟨fun v w => ⟨v.x - w.x, v.y - w.y⟩⟩

instance : Neg Vec2 := ⟨fun v => ⟨-v.x, -v.y⟩⟩

/-- Scalar multiplication `v * q` (glam allows `Vec2 * f32`). -/
def Vec2.scale (v : Vec2) (q : ℚ) : Vec2 := ⟨v.x * q, v.y * q⟩

/-- Scalar division `v / q` (glam `Vec2 / f32`). -/
def Vec2.sdiv (v : Vec2) (q : ℚ) : Vec2 := ⟨v.x / q, v.y / q⟩

/-- glam `Vec2::perp`: the counterclockwise perpendicular `(-y, x)`. -/
def Vec2.perp (v : Vec2) : Vec2 := ⟨-v.y, v.x⟩

/-- glam `Vec2::perp_dot`: the 2D cross product `v.x * w.y - v.y * w.x`. -/
def Vec2.perp_dot (v w : Vec2) : ℚ := v.x * w.y - v.y * w.x

/-- glam `Vec2::dot`. -/
def Vec2.dot (v w : Vec2) : ℚ := v.x * w.x + v.y * w.y

/-- Squared Euclidean distance between two points.  Comparisons of
`(v - w).length()` in the source are modelled by comparisons of `dist2 v w`;
the two give identical orderings since the square root is strictly monotone. -/
def dist2 (v w : Vec2) : ℚ := (v.x - w.x) ^ 2 + (v.y - w.y) ^ 2

/-- Model of `f32::sqrt` on exact rationals: exact whenever the argument is
the square of a rational, i.e. whenever the `f32` computation it models is
exact.  (No theorem in this file depends on its value on other inputs.) -/
def ratSqrt (q : ℚ) : ℚ :=
  if q < 0 then 0 else (Nat.sqrt q.num.toNat : ℚ) / (Nat.sqrt q.den : ℚ)

/-- Model of glam `Vec2::length`. -/
def Vec2.length (v : Vec2) : ℚ := ratSqrt (v.x ^ 2 + v.y ^ 2)

/-- Model of glam `Vec2::normalize` (division by the length). -/
def Vec2.normalize (v : Vec2) : Vec2 := v.sdiv v.length

/-- The largest finite `f32` value, `(2 - 2^-23) * 2^127 = 2^128 - 2^104`
written as a numeral; model of `f32::MAX`, the initial accumulator of the
SAT projection minimum. -/
def f32MAX : ℚ := 340282346638528859811704183484516925440

/-- `f32::MIN = -f32::MAX`, the initial accumulator of the SAT projection
maximum. -/
def f32MIN : ℚ := -f32MAX

/-- A polygon represented by its edge vectors (CCW order).
`pub struct EdgeVectors(pub Vec<Vec2>)`. -/
abbrev EdgeVectors := List Vec2

/-- Element access `a[i]`.  Every index used by the algorithms below is kept
in range (it is produced by `get_first_index` or reduced `% len`), so the
out-of-range default is never consulted. -/
def idx (l : List Vec2) (k : ℕ) : Vec2 := l.getD k 0

/-- `EdgeVectors::with_rect_size_rotation`.  The `f32` rotation angle enters
the source only through `Mat2::from_angle(rotation)`, i.e. through its cosine
`c` and sine `s`; the model takes those two values directly (`c = 1, s = 0`
for rotation `0.0`, where `f32` trigonometry is exact). -/
def with_rect_size_rotation (size : Vec2) (c s : ℚ) : EdgeVectors :=
  [ ⟨c * size.x, s * size.x⟩
  , ⟨-s * size.y, c * size.y⟩
  , ⟨-(c * size.x), -(s * size.x)⟩
  , ⟨s * size.y, -(c * size.y)⟩ ]

/-- `EdgeVectors::from_vertices`: edge `i` is `vertices[(i+1) % len] -
vertices[i]`. -/
def from_vertices (vs : List Vec2) : EdgeVectors :=
  (List.range vs.length).map fun i => idx vs ((i + 1) % vs.length) - idx vs i

/-- `EdgeVectors::local_vertices`: running sums of the edge vectors starting
from the origin (the initial vertex `(0,0)` itself is not yielded). -/
def local_vertices (es : EdgeVectors) : List Vec2 :=
  (es.scanl (· + ·) 0).tail

/-- `EdgeVectors::divide`: split each edge vector into `n` equal parts. -/
def divide (es : EdgeVectors) (n : ℕ) : EdgeVectors :=
  es.flatMap fun a => List.replicate n (a.sdiv (n : ℚ))

/-- The fold inside `get_first_index`: Rust `Iterator::min_by` keeps the
first minimum, replacing the accumulator only when it compares `Greater`.
The comparator is lexicographic on `(y, x)` (no NaN in the `ℚ` model; the
NaN-propagating variant appears in the `PackingF` section). -/
def firstIndexFold : List Vec2 → ℕ → ℕ × Vec2 → ℕ × Vec2
  | [], _, acc => acc
  | w :: rest, k, (bi, bv) =>
    if w.y < bv.y ∨ (w.y = bv.y ∧ w.x < bv.x) then
      firstIndexFold rest (k + 1) (k, w)
    else
      firstIndexFold rest (k + 1) (bi, bv)

/-- `get_first_index`: index of the bottom-left-most point (lexicographically
smallest by `(y, x)`).  `none` models the `unwrap` panic on an empty
iterator. -/
def get_first_index (vs : List Vec2) : Option ℕ :=
  match vs with
  | [] => none
  | v :: rest => some (firstIndexFold rest 1 (0, v)).1

/-- State of the merge loop of `minkowski_sum`: current indices, the two
consumption counters, the running vertex `cur` and the output vertex list. -/
structure MState where
  i : ℕ
  j : ℕ
  iInc : ℕ
  jInc : ℕ
  cur : Vec2
  result : List Vec2
deriving DecidableEq, Repr

/-- Negation of the `while` condition `i_inc < a.len() || j_inc < b.len()`. -/
def mergeDone (a b : EdgeVectors) (σ : MState) : Prop :=
  ¬(σ.iInc < a.length ∨ σ.jInc < b.length)

instance (a b : EdgeVectors) (σ : MState) : Decidable (mergeDone a b σ) := by
  unfold mergeDone; infer_instance

/-- One iteration of the merge loop body: push `cur`, compute the cross
product of the two current edge vectors, and advance each side whose guard
holds. -/
def mergeStep (a b : EdgeVectors) (σ : MState) : MState :=
  let a_i := idx a σ.i
  let b_j := idx b σ.j
  let result := σ.result ++ [σ.cur]
  let cross := a_i.perp_dot b_j
  let s1 : ℕ × ℕ × Vec2 :=
    if 0 ≤ cross ∧ σ.iInc < a.length then
      let i' := (σ.i + 1) % a.length
      (i', σ.iInc + 1, σ.cur + idx a i')
    else
      (σ.i, σ.iInc, σ.cur)
  let s2 : ℕ × ℕ × Vec2 :=
    if cross ≤ 0 ∧ σ.jInc < b.length then
      let j' := (σ.j + 1) % b.length
      (j', σ.jInc + 1, s1.2.2 + idx b j')
    else
      (σ.j, σ.jInc, s1.2.2)
  ⟨s1.1, s2.1, s1.2.1, s2.2.1, s2.2.2, result⟩

/-- The merge loop, fuelled: `none` means the loop did not finish within
`fuel` iterations (in particular it is the value, for every `fuel`, on inputs
where the loop runs forever). -/
def mergeRun (a b : EdgeVectors) : ℕ → MState → Option (List Vec2)
  | 0, _ => none
  | fuel + 1, σ =>
    if mergeDone a b σ then some σ.result
    else mergeRun a b fuel (mergeStep a b σ)

/-- `minkowski_sum`: Minkowski sum of two polygons by angular merge of edge
vectors.  `none` models a panic (empty input) or a non-terminating merge
loop. -/
def minkowski_sum (fuel : ℕ) (a b : EdgeVectors) : Option EdgeVectors :=
  match get_first_index (local_vertices a), get_first_index (local_vertices b) with
  | some i, some j =>
    (mergeRun a b fuel ⟨i, j, 0, 0, idx a i + idx b j, []⟩).map from_vertices
  | _, _ => none

/-- `pub struct ShapePosition { translation: Vec2, edges: EdgeVectors }`. -/
structure ShapePosition where
  translation : Vec2
  edges : EdgeVectors
deriving DecidableEq, Repr

/-- `calculate_centroid`: arithmetic mean of a vertex list (the source folds
vector additions and divides by the length; the model divides each summed
component). -/
def calculate_centroid (vs : List Vec2) : Vec2 :=
  ⟨(vs.map Vec2.x).sum / (vs.length : ℚ), (vs.map Vec2.y).sum / (vs.length : ℚ)⟩

/-- `ShapePosition::vertices`: local vertices, re-centred so that their
centroid lands on `translation`. -/
def ShapePosition.vertices (s : ShapePosition) : List Vec2 :=
  let vs := local_vertices s.edges
  let centroid := calculate_centroid vs
  vs.map fun v => v + s.translation - centroid

/-- `ShapePosition::offset`: outward-buffer the polygon by `width` along the
averaged adjacent outward edge normals, then rebuild the edges from the new
vertex list and correct the translation by the centroid drift. -/
def ShapePosition.offset (s : ShapePosition) (width : ℚ) : ShapePosition :=
  let vs := s.vertices
  let new_vertices := (List.range s.edges.length).map fun i =>
    let prev_normal := -(idx s.edges i).perp.normalize
    let next_normal := -(idx s.edges ((i + 1) % s.edges.length)).perp.normalize
    idx vs i + (prev_normal + next_normal).scale width
  { translation := s.translation -
      (calculate_centroid new_vertices - calculate_centroid vs)
    edges := from_vertices new_vertices }

/-- The axis list of the SAT test: perpendiculars of both shapes' edges. -/
def satNormals (s other : ShapePosition) : List Vec2 :=
  s.edges.map Vec2.perp ++ other.edges.map Vec2.perp

/-- The fold computing `min_a` (starting from `f32::MAX`). -/
def projMin (vs : List Vec2) (normal : Vec2) : ℚ :=
  vs.foldl (fun m v => min m (v.dot normal)) f32MAX

/-- The fold computing `max_a` (starting from `f32::MIN`). -/
def projMax (vs : List Vec2) (normal : Vec2) : ℚ :=
  vs.foldl (fun m v => max m (v.dot normal)) f32MIN

/-- `ShapePosition::is_overlapping` (Separating Axis Theorem): `false` exactly
when some axis strictly separates the projection ranges. -/
def ShapePosition.is_overlapping (s other : ShapePosition) : Bool :=
  !((satNormals s other).any fun normal =>
    decide (projMax s.vertices normal < projMin other.vertices normal ∨
      projMax other.vertices normal < projMin s.vertices normal))

/-- The comparator of both sorts in `fill`: ascending distance to the nominal
translation of `shape_to_place` (squared distances order like `length()`). -/
def distLE (target : Vec2) (v w : Vec2) : Bool :=
  decide (dist2 v target ≤ dist2 w target)

/-- The candidates contributed by one placed shape `p`: the (sorted) vertices
of the gap-offset no-fit polygon around `p` whose trial placement of
`shape_to_place` overlaps no gap-offset placed shape. -/
def fillCandidatesFor (fuel : ℕ) (placed_shapes : List ShapePosition)
    (shape_to_place : ShapePosition) (offset : ℚ) (div : Option ℕ)
    (p : ShapePosition) : Option (List ShapePosition) :=
  (minkowski_sum fuel p.edges shape_to_place.edges).map fun nfp =>
    let nfp_shape : ShapePosition :=
      ShapePosition.offset ⟨p.translation, divide nfp (div.getD 1)⟩ offset
    let nfp_vertices :=
      nfp_shape.vertices.mergeSort (distLE shape_to_place.translation)
    (nfp_vertices.filter fun nfp_vertex =>
      !(placed_shapes.any fun placed2 =>
        ShapePosition.is_overlapping ⟨nfp_vertex, shape_to_place.edges⟩
          (placed2.offset offset))).map
      fun nfp_vertex => ShapePosition.mk nfp_vertex shape_to_place.edges

/-- The outer `for placed in placed_shapes` loop of `fill`, accumulating the
candidate pool; the first argument of the recursion is the remaining part of
`placed_shapes` (`placed_all` stays the full collection, used by the inner
overlap tests). -/
def fillCandidatesAux (fuel : ℕ) (placed_all : List ShapePosition)
    (shape_to_place : ShapePosition) (offset : ℚ) (div : Option ℕ) :
    List ShapePosition → Option (List ShapePosition)
  | [] => some []
  | p :: rest =>
    match fillCandidatesFor fuel placed_all shape_to_place offset div p with
    | none => none
    | some cs =>
      match fillCandidatesAux fuel placed_all shape_to_place offset div rest with
      | none => none
      | some more => some (cs ++ more)

/-- The pooled candidate list accumulated by `fill` across all placed shapes
(`none` if some Minkowski sum panicked or failed to terminate). -/
def fillCandidates (fuel : ℕ) (placed_shapes : List ShapePosition)
    (shape_to_place : ShapePosition) (offset : ℚ) (div : Option ℕ) :
    Option (List ShapePosition) :=
  fillCandidatesAux fuel placed_shapes shape_to_place offset div placed_shapes

/-- `fill`: sort the pooled candidates by distance to the nominal translation
and return the closest (`swap_remove(0)`); `none` models the panic on an
empty candidate list (and propagates a failed Minkowski sum). -/
def fill (fuel : ℕ) (placed_shapes : List ShapePosition)
    (shape_to_place : ShapePosition) (offset : ℚ) (div : Option ℕ) :
    Option ShapePosition :=
  (fillCandidates fuel placed_shapes shape_to_place offset div).bind
    fun candidates =>
      (candidates.mergeSort
        (fun a b => distLE shape_to_place.translation a.translation b.translation)).head?

/-- Sum of a list of vectors. -/
def vsum (l : List Vec2) : Vec2 := l.foldl (· + ·) 0

/-- Witness data: the 4x4 axis-aligned square outline of the repository's
own tests. -/
def wRect44 : EdgeVectors := with_rect_size_rotation ⟨4, 4⟩ 1 0

/-- Witness data: a placed 4x4 square at the origin. -/
def wPlaced : ShapePosition := ⟨⟨0, 0⟩, wRect44⟩

/-- Witness data: a 2x2 square nominally at `(25, 25)` to be placed. -/
def wShape : ShapePosition := ⟨⟨25, 25⟩, with_rect_size_rotation ⟨2, 2⟩ 1 0⟩

/-- Witness data: the shape `fill` returns for `wPlaced`/`wShape` with gap 1
and subdivision 2. -/
def wResult : ShapePosition :=
  ⟨⟨5, 0⟩, [⟨2, 0⟩, ⟨0, 2⟩, ⟨-2, 0⟩, ⟨0, -2⟩]⟩

/-- Witness data: the full candidate pool of that `fill` invocation. -/
def wPool : List ShapePosition :=
  [ ⟨⟨5, 0⟩, [⟨2, 0⟩, ⟨0, 2⟩, ⟨-2, 0⟩, ⟨0, -2⟩]⟩
  , ⟨⟨0, 5⟩, [⟨2, 0⟩, ⟨0, 2⟩, ⟨-2, 0⟩, ⟨0, -2⟩]⟩
  , ⟨⟨-5, 0⟩, [⟨2, 0⟩, ⟨0, 2⟩, ⟨-2, 0⟩, ⟨0, -2⟩]⟩
  , ⟨⟨0, -5⟩, [⟨2, 0⟩, ⟨0, 2⟩, ⟨-2, 0⟩, ⟨0, -2⟩]⟩ ]

/-- Witness data: a second accepted candidate of the pool. -/
def wOther : ShapePosition :=
  ⟨⟨0, -5⟩, [⟨2, 0⟩, ⟨0, 2⟩, ⟨-2, 0⟩, ⟨0, -2⟩]⟩

/-- The claim's hypothesis on `minkowski_sum` inputs, formalised: at least 3
edges, the edge vectors close up to zero, and consecutive edges always turn
strictly left (strictly convex, counter-clockwise). -/
def isClosedConvexCCW (es : EdgeVectors) : Bool :=
  decide (3 ≤ es.length) && decide (vsum es = 0) &&
    (List.range es.length).all fun i =>
      decide (0 < (idx es i).perp_dot (idx es ((i + 1) % es.length)))

/-- A merge-loop state from which no progress is possible: the `while`
condition still holds but neither advance guard does.  (`cur` and `result`
are irrelevant: the step from such a state only repeats the push.) -/
def mergeStuck (a b : EdgeVectors) (σ : MState) : Prop :=
  (σ.iInc < a.length ∨ σ.jInc < b.length) ∧
  ¬(0 ≤ (idx a σ.i).perp_dot (idx b σ.j) ∧ σ.iInc < a.length) ∧
  ¬((idx a σ.i).perp_dot (idx b σ.j) ≤ 0 ∧ σ.jInc < b.length)

instance (a b : EdgeVectors) (σ : MState) : Decidable (mergeStuck a b σ) := by
  unfold mergeStuck; infer_instance

/-- First polygon of the divergence witness: a strictly convex CCW closed
triangle (edge angles roughly 101°, 259°, 349°). -/
def stuckA : EdgeVectors := [⟨-26, 130⟩, ⟨-24, -120⟩, ⟨50, -10⟩]

/-- Second polygon of the divergence witness: a strictly convex CCW closed
triangle (edge angles roughly 9°, 135°, 248°). -/
def stuckB : EdgeVectors := [⟨6, 1⟩, ⟨-4, 4⟩, ⟨-2, -5⟩]

/-- The initial merge state `minkowski_sum` builds for `stuckA`/`stuckB`
(both bottom-left-most vertices have index 2). -/
def stuckInit : MState := ⟨2, 2, 0, 0, idx stuckA 2 + idx stuckB 2, []⟩

end Packing

namespace PackingF

/-!
NaN-aware re-embedding of `get_first_index` / `minkowski_sum` for claim C5.
A coordinate is `Option ℚ`: `none` models an `f32` NaN.  Arithmetic
propagates NaN; IEEE comparisons with a NaN operand are false and
`partial_cmp` involving NaN is `None` (modelled by `Option Ordering`).
-/

/-- An `f32` coordinate: `none` is NaN. -/
abbrev QF := Option ℚ

/-- NaN-propagating addition. -/
def addQF (a b : QF) : QF :=
  match a, b with
  | some p, some q => some (p + q)
  | _, _ => none

/-- NaN-propagating subtraction. -/
def subQF (a b : QF) : QF :=
  match a, b with
  | some p, some q => some (p - q)
  | _, _ => none

/-- NaN-propagating multiplication (NaN * 0 is NaN, as in IEEE). -/
def mulQF (a b : QF) : QF :=
  match a, b with
  | some p, some q => some (p * q)
  | _, _ => none

/-- `partial_cmp` on `f32`: `None` iff an operand is NaN. -/
def compareQF (a b : QF) : Option Ordering :=
  match a with
  | none => none
  | some p =>
    match b with
    | none => none
    | some q => some (compare p q)

/-- IEEE `x >= 0.0`: false when `x` is NaN. -/
def geZeroF (a : QF) : Bool :=
  match a with
  | some q => decide (0 ≤ q)
  | none => false

/-- IEEE `x <= 0.0`: false when `x` is NaN. -/
def leZeroF (a : QF) : Bool :=
  match a with
  | some q => decide (q ≤ 0)
  | none => false

/-- A 2D vector with possibly-NaN coordinates. -/
structure Vec2F where
  x : QF
  y : QF
deriving DecidableEq, Repr

/-- Componentwise NaN-propagating vector addition. -/
def Vec2F.add (v w : Vec2F) : Vec2F := ⟨addQF v.x w.x, addQF v.y w.y⟩

/-- Componentwise NaN-propagating vector subtraction. -/
def Vec2F.sub (v w : Vec2F) : Vec2F := ⟨subQF v.x w.x, subQF v.y w.y⟩

/-- NaN-propagating `perp_dot`. -/
def perp_dotF (v w : Vec2F) : QF :=
  subQF (mulQF v.x w.y) (mulQF v.y w.x)

/-- Rust's tuple `(v.y, v.x).partial_cmp(&(w.y, w.x))`: lexicographic,
`None` as soon as a compared component involves NaN. -/
def cmpYXF (v w : Vec2F) : Option Ordering :=
  match compareQF v.y w.y with
  | some Ordering.eq => compareQF v.x w.x
  | some o => some o
  | none => none

/-- Element access (indices are kept in range by the algorithms). -/
def idxF (l : List Vec2F) (k : ℕ) : Vec2F := l.getD k ⟨some 0, some 0⟩

/-- `local_vertices` with NaN propagation. -/
def local_verticesF (es : List Vec2F) : List Vec2F :=
  (es.scanl Vec2F.add ⟨some 0, some 0⟩).tail

/-- The `min_by` fold of `get_first_index`; `Except.error` models the
`expect("NaN element in EdgeVectors")` panic inside the comparator. -/
def firstIndexFoldF : List Vec2F → ℕ → ℕ × Vec2F → Except String ℕ
  | [], _, acc => Except.ok acc.1
  | w :: rest, k, (bi, bv) =>
    match cmpYXF bv w with
    | none => Except.error "NaN element in EdgeVectors"
    | some Ordering.gt => firstIndexFoldF rest (k + 1) (k, w)
    | some _ => firstIndexFoldF rest (k + 1) (bi, bv)

/-- `get_first_index` over possibly-NaN input; the error on `[]` models the
`unwrap` panic on an empty iterator. -/
def get_first_indexF (vs : List Vec2F) : Except String ℕ :=
  match vs with
  | [] => Except.error "called Option::unwrap() on a None value"
  | v :: rest => firstIndexFoldF rest 1 (0, v)

/-- Merge-loop state (NaN-aware variant). -/
structure MStateF where
  i : ℕ
  j : ℕ
  iInc : ℕ
  jInc : ℕ
  cur : Vec2F
  result : List Vec2F
deriving DecidableEq, Repr

/-- One merge-loop iteration; the advance guards use IEEE comparisons, so a
NaN cross product advances neither side. -/
def mergeStepF (a b : List Vec2F) (σ : MStateF) : MStateF :=
  let cross := perp_dotF (idxF a σ.i) (idxF b σ.j)
  let result := σ.result ++ [σ.cur]
  let s1 : ℕ × ℕ × Vec2F :=
    if geZeroF cross ∧ σ.iInc < a.length then
      let i' := (σ.i + 1) % a.length
      (i', σ.iInc + 1, σ.cur.add (idxF a i'))
    else
      (σ.i, σ.iInc, σ.cur)
  let s2 : ℕ × ℕ × Vec2F :=
    if leZeroF cross ∧ σ.jInc < b.length then
      let j' := (σ.j + 1) % b.length
      (j', σ.jInc + 1, s1.2.2.add (idxF b j'))
    else
      (σ.j, σ.jInc, s1.2.2)
  ⟨s1.1, s2.1, s1.2.1, s2.2.1, s2.2.2, result⟩

/-- The fuelled merge loop; `none` is returned when the loop has not finished
within `fuel` iterations. -/
def mergeRunF (a b : List Vec2F) : ℕ → MStateF → Option (List Vec2F)
  | 0, _ => none
  | fuel + 1, σ =>
    if σ.iInc < a.length ∨ σ.jInc < b.length then
      mergeRunF a b fuel (mergeStepF a b σ)
    else some σ.result

/-- `from_vertices` with NaN propagation. -/
def from_verticesF (vs : List Vec2F) : List Vec2F :=
  (List.range vs.length).map fun i =>
    Vec2F.sub (idxF vs ((i + 1) % vs.length)) (idxF vs i)

/-- NaN-aware `minkowski_sum`: `Except.error` models a panic, `Except.ok
none` an unfinished (in particular a never-terminating) merge loop, and
`Except.ok (some es)` a normal return. -/
def minkowski_sumF (fuel : ℕ) (a b : List Vec2F) :
    Except String (Option (List Vec2F)) :=
  match get_first_indexF (local_verticesF a) with
  | Except.error e => Except.error e
  | Except.ok i =>
    match get_first_indexF (local_verticesF b) with
    | Except.error e => Except.error e
    | Except.ok j =>
      Except.ok ((mergeRunF a b fuel ⟨i, j, 0, 0,
        (idxF a i).add (idxF b j), []⟩).map from_verticesF)

/-- Whether some coordinate of some edge vector is NaN. -/
def hasNaN (es : List Vec2F) : Bool :=
  es.any fun v => decide (v.x = none ∨ v.y = none)

/-- C5 counterexample input: a NaN confined to an `x` coordinate, with the
two local vertices having distinct (non-NaN) `y` coordinates, so that the
bottom-left selection never feeds NaN to its comparator. -/
def nanA : List Vec2F := [⟨none, some 1⟩, ⟨some 0, some 1⟩]

/-- C5 counterexample partner: a NaN-free single-edge input. -/
def nanB : List Vec2F := [⟨some 1, some 0⟩]

/-- Input for the amended C5 statement's witness: NaN in a `y` coordinate. -/
def nanYA : List Vec2F := [⟨some 0, none⟩, ⟨some 1, some 1⟩]

/-- A NaN-variant merge state from which no progress is possible (in
particular when the cross product is NaN, both IEEE guards are false). -/
def mergeStuckF (a b : List Vec2F) (σ : MStateF) : Prop :=
  (σ.iInc < a.length ∨ σ.jInc < b.length) ∧
  ¬(geZeroF (perp_dotF (idxF a σ.i) (idxF b σ.j)) = true ∧ σ.iInc < a.length) ∧
  ¬(leZeroF (perp_dotF (idxF a σ.i) (idxF b σ.j)) = true ∧ σ.jInc < b.length)

instance (a b : List Vec2F) (σ : MStateF) : Decidable (mergeStuckF a b σ) := by
  unfold mergeStuckF; infer_instance

end PackingF

namespace CameraUtil

/-!
Model for `CameraTranslator::to_control` (claim C8).  The bevy camera and
transform machinery called by `to_control` is not part of the repository;
it is modelled from the spec (§4.5): cameras are orthographic and 2D, a
camera's world-to-viewport map is an invertible affine map of the plane
(composition of the inverse camera transform and the orthographic
projection-to-viewport map), and `viewport_to_world_2d` is its inverse
composition.  `GlobalTransform` affines are restricted to the 2D plane, with
the `z` translation carried separately; glam's
`to_scale_rotation_translation` decomposition is modelled in 2D (scale from
column lengths with the determinant sign on `x`, rotation from the
normalized first column).
-/

open Packing (Vec2 ratSqrt)

/-- A 2x2 matrix over ℚ (row-major entries). -/
structure Mat2 where
  m00 : ℚ
  m01 : ℚ
  m10 : ℚ
  m11 : ℚ
deriving DecidableEq, Repr

/-- Matrix-vector application. -/
def Mat2.mulVec (m : Mat2) (v : Vec2) : Vec2 :=
  ⟨m.m00 * v.x + m.m01 * v.y, m.m10 * v.x + m.m11 * v.y⟩

/-- Matrix product. -/
def Mat2.mul (m n : Mat2) : Mat2 :=
  ⟨m.m00 * n.m00 + m.m01 * n.m10, m.m00 * n.m01 + m.m01 * n.m11,
   m.m10 * n.m00 + m.m11 * n.m10, m.m10 * n.m01 + m.m11 * n.m11⟩

/-- Determinant. -/
def Mat2.det (m : Mat2) : ℚ := m.m00 * m.m11 - m.m01 * m.m10

/-- Inverse (entries divided by the determinant; garbage when singular,
never used there). -/
def Mat2.inv (m : Mat2) : Mat2 :=
  ⟨m.m11 / m.det, -m.m01 / m.det, -m.m10 / m.det, m.m00 / m.det⟩

/-- An affine map of the plane: linear part plus translation. -/
structure Affine2 where
  linear : Mat2
  translation : Vec2
deriving DecidableEq, Repr

/-- Application `A p = L p + t`. -/
def Affine2.apply (A : Affine2) (p : Vec2) : Vec2 :=
  A.linear.mulVec p + A.translation

/-- Composition `(A.comp B) p = A (B p)` (glam's `A * B`). -/
def Affine2.comp (A B : Affine2) : Affine2 :=
  ⟨A.linear.mul B.linear, A.linear.mulVec B.translation + A.translation⟩

/-- Affine inverse. -/
def Affine2.inv (A : Affine2) : Affine2 :=
  ⟨A.linear.inv, -(A.linear.inv.mulVec A.translation)⟩

/-- A 2D rotation, stored as cosine and sine. -/
structure Rot2 where
  c : ℚ
  s : ℚ
deriving DecidableEq, Repr

/-- `signum` restricted to the nonzero determinant values it is applied to. -/
def sgn (q : ℚ) : ℚ := if q < 0 then -1 else 1

/-- Modelled from the spec: glam `to_scale_rotation_translation`, scale part
(column lengths, determinant sign applied to the first component). -/
def decomposeScale (m : Mat2) : Vec2 :=
  ⟨sgn m.det * ratSqrt (m.m00 ^ 2 + m.m10 ^ 2), ratSqrt (m.m01 ^ 2 + m.m11 ^ 2)⟩

/-- Modelled from the spec: glam `to_scale_rotation_translation`, rotation
part (first column normalized by the signed scale). -/
def decomposeRot (m : Mat2) : Rot2 :=
  let sx := sgn m.det * ratSqrt (m.m00 ^ 2 + m.m10 ^ 2)
  ⟨m.m00 / sx, m.m10 / sx⟩

/-- A `GlobalTransform` restricted to the 2D plane: its planar affine and
the `z` component of its translation. -/
structure GlobalTransform2 where
  affine : Affine2
  z : ℚ
deriving DecidableEq, Repr

/-- The input's rotation, as bevy's `GlobalTransform::rotation()` computes it
(by decomposition). -/
def GlobalTransform2.rotation (t : GlobalTransform2) : Rot2 :=
  decomposeRot t.affine.linear

/-- The input's scale, as bevy's `GlobalTransform::scale()` computes it. -/
def GlobalTransform2.scale (t : GlobalTransform2) : Vec2 :=
  decomposeScale t.affine.linear

/-- Modelled from the spec: an orthographic camera's projection, as the
affine map taking camera space to viewport (pixel) space. -/
structure Camera2 where
  proj : Affine2
deriving DecidableEq, Repr

/-- Modelled from the spec: `Camera::world_to_viewport` for an orthographic
camera — into camera space via the inverse camera transform, then through
the projection-to-viewport map. -/
def world_to_viewport (cam : Camera2) (camT : Affine2) (p : Vec2) : Vec2 :=
  cam.proj.apply (camT.inv.apply p)

/-- Modelled from the spec: `Camera::viewport_to_world_2d`, the inverse
composition. -/
def viewport_to_world_2d (cam : Camera2) (camT : Affine2) (v : Vec2) : Vec2 :=
  camT.apply (cam.proj.inv.apply v)

/-- The returned `Transform` (translation split into plane + z). -/
structure Transform2 where
  translation : Vec2
  z : ℚ
  rotation : Rot2
  scale : Vec2
deriving DecidableEq, Repr

/-- `CameraTranslator::to_control`: project the input translation through the
main camera to the viewport, unproject through the control camera, and take
scale/rotation from the decomposition of
`main_transform * control_camera_transform * main_camera_transform⁻¹`;
the returned `z` is always 0. -/
def to_control (mainCam ctrlCam : Camera2) (mainT ctrlT : Affine2)
    (t : GlobalTransform2) : Transform2 :=
  let main_viewport := world_to_viewport mainCam mainT t.affine.translation
  let translation := viewport_to_world_2d ctrlCam ctrlT main_viewport
  let affine := (t.affine.comp ctrlT).comp mainT.inv
  { translation := translation
    z := 0
    rotation := decomposeRot affine.linear
    scale := decomposeScale affine.linear }

/-- Witness data: a camera with invertible projection map. -/
def wCam : Camera2 := ⟨⟨⟨2, 0, 0, 2⟩, ⟨100, 50⟩⟩⟩

/-- Witness data: an invertible camera transform. -/
def wCamT : Affine2 := ⟨⟨1, 0, 0, 1⟩, ⟨3, 4⟩⟩

/-- Witness data: an input transform (uniform scale 3, translation
`(5, 7, 2)`). -/
def wGT : GlobalTransform2 := ⟨⟨⟨3, 0, 0, 3⟩, ⟨5, 7⟩⟩, 2⟩

end CameraUtil

namespace Picking

/-!
Model for the per-ray candidate scan of `pick_shape` (claim C9).  The bevy
ray/plane/transform helpers it calls are modelled from the spec over exact
rationals: `intersect_plane` with the `f32::EPSILON` guards idealised to
exact zero/positivity tests, and the hit test `length() < radius` expressed
on squared lengths (`0 ≤ r ∧ |p|² < r²` iff `|p| < r`).
-/

open Packing (ratSqrt)

/-- 3D vector over ℚ. -/
structure Vec3 where
  x : ℚ
  y : ℚ
  z : ℚ
deriving DecidableEq, Repr

instance : Add Vec3 := ⟨fun v w => ⟨v.x + w.x, v.y + w.y, v.z + w.z⟩⟩

instance : Sub Vec3 := ⟨fun v w => ⟨v.x - w.x, v.y - w.y, v.z - w.z⟩⟩

instance : Neg Vec3 := ⟨fun v => ⟨-v.x, -v.y, -v.z⟩⟩

/-- Scalar multiplication. -/
def Vec3.scale (v : Vec3) (q : ℚ) : Vec3 := ⟨v.x * q, v.y * q, v.z * q⟩

/-- Dot product. -/
def Vec3.dot (v w : Vec3) : ℚ := v.x * w.x + v.y * w.y + v.z * w.z

/-- Model of glam `Vec3::normalize` (exact when the length is rational). -/
def Vec3.normalizeQ (v : Vec3) : Vec3 :=
  let len := ratSqrt (v.x ^ 2 + v.y ^ 2 + v.z ^ 2)
  ⟨v.x / len, v.y / len, v.z / len⟩

/-- A 3x3 matrix over ℚ (row-major entries). -/
structure Mat3 where
  m00 : ℚ
  m01 : ℚ
  m02 : ℚ
  m10 : ℚ
  m11 : ℚ
  m12 : ℚ
  m20 : ℚ
  m21 : ℚ
  m22 : ℚ
deriving DecidableEq, Repr

/-- Matrix-vector application. -/
def Mat3.mulVec (m : Mat3) (v : Vec3) : Vec3 :=
  ⟨m.m00 * v.x + m.m01 * v.y + m.m02 * v.z,
   m.m10 * v.x + m.m11 * v.y + m.m12 * v.z,
   m.m20 * v.x + m.m21 * v.y + m.m22 * v.z⟩

/-- Determinant. -/
def Mat3.det (m : Mat3) : ℚ :=
  m.m00 * (m.m11 * m.m22 - m.m12 * m.m21)
    - m.m01 * (m.m10 * m.m22 - m.m12 * m.m20)
    + m.m02 * (m.m10 * m.m21 - m.m11 * m.m20)

/-- Inverse via the adjugate (garbage when singular, never used there). -/
def Mat3.inv (m : Mat3) : Mat3 :=
  let d := m.det
  ⟨(m.m11 * m.m22 - m.m12 * m.m21) / d,
   (m.m02 * m.m21 - m.m01 * m.m22) / d,
   (m.m01 * m.m12 - m.m02 * m.m11) / d,
   (m.m12 * m.m20 - m.m10 * m.m22) / d,
   (m.m00 * m.m22 - m.m02 * m.m20) / d,
   (m.m02 * m.m10 - m.m00 * m.m12) / d,
   (m.m10 * m.m21 - m.m11 * m.m20) / d,
   (m.m01 * m.m20 - m.m00 * m.m21) / d,
   (m.m00 * m.m11 - m.m01 * m.m10) / d⟩

/-- A 3D affine transform (a `GlobalTransform`). -/
structure Affine3 where
  linear : Mat3
  translation : Vec3
deriving DecidableEq, Repr

/-- `transform_point3` / `transform_point`. -/
def Affine3.apply (A : Affine3) (p : Vec3) : Vec3 :=
  A.linear.mulVec p + A.translation

/-- Affine inverse. -/
def Affine3.inv (A : Affine3) : Affine3 :=
  ⟨A.linear.inv, -(A.linear.inv.mulVec A.translation)⟩

/-- `GlobalTransform::back()`: the local `+Z` axis in world space,
normalized. -/
def Affine3.back (A : Affine3) : Vec3 :=
  (A.linear.mulVec ⟨0, 0, 1⟩).normalizeQ

/-- A ray. -/
structure Ray3 where
  origin : Vec3
  dir : Vec3
deriving DecidableEq, Repr

/-- `Ray3d::get_point`. -/
def Ray3.get_point (r : Ray3) (d : ℚ) : Vec3 := r.origin + r.dir.scale d

/-- Modelled from the spec: bevy `Ray3d::intersect_plane` with the
`f32::EPSILON` guards idealised to exact tests (non-parallel denominator,
strictly positive distance). -/
def intersect_plane (r : Ray3) (plane_origin n : Vec3) : Option ℚ :=
  let denom := n.dot r.dir
  if denom = 0 then none
  else
    let distance := ((plane_origin - r.origin).dot n) / denom
    if 0 < distance then some distance else none

/-- bevy `Pickable` component fields used by the backend. -/
structure Pickable where
  should_block_lower : Bool
  is_hoverable : Bool
deriving DecidableEq, Repr

/-- One entry of `sorted_handles`: entity, transform, circle radius, optional
`Pickable`, optional `RenderLayers` (a layer set). -/
structure PickCandidate where
  entity : ℕ
  transform : Affine3
  radius : ℚ
  pickable : Option Pickable
  render_layers : Option (List ℕ)
deriving DecidableEq, Repr

/-- `RenderLayers::default()` is layer 0. -/
def layersOf (o : Option (List ℕ)) : List ℕ := o.getD [0]

/-- `RenderLayers::intersects`. -/
def layersIntersect (l1 l2 : List ℕ) : Bool := l1.any fun x => l2.contains x

/-- The fields of `HitData` the backend fills in. -/
structure HitData where
  camera : ℕ
  depth : ℚ
  position : Vec3
  normal : Vec3
deriving DecidableEq, Repr

/-- The camera data consumed by the per-ray loop. -/
structure CameraP where
  entity : ℕ
  transform : Affine3
  near : ℚ
  render_layers : Option (List ℕ)
deriving DecidableEq, Repr

/-- The body of the candidate scan up to the hit decision: plane
intersection, transform into the handle's local space, circle test, and
`HitData` construction (`length() < radius` modelled on squared lengths). -/
def hit_test (cam : CameraP) (ray : Ray3) (c : PickCandidate) : Option HitData :=
  let world_to_handle := c.transform.inv
  match intersect_plane ray c.transform.translation c.transform.back with
  | none => none
  | some distance =>
    let cursor := world_to_handle.apply (ray.get_point distance)
    if 0 ≤ c.radius ∧ cursor.x ^ 2 + cursor.y ^ 2 < c.radius ^ 2 then
      let hit_pos_world := c.transform.apply ⟨cursor.x, cursor.y, 0⟩
      let hit_pos_cam := cam.transform.inv.apply hit_pos_world
      some ⟨cam.entity, -cam.near - hit_pos_cam.z, hit_pos_world,
        c.transform.back⟩
    else none

/-- `Pickable::is_none_or(should_block_lower)`: entities without the
component block by default. -/
def should_block (c : PickCandidate) : Bool :=
  match c.pickable with
  | none => true
  | some p => p.should_block_lower

/-- The per-ray loop over `sorted_handles`: skip candidates whose render
layers miss the camera's, accumulate hits, and `break` after a hit whose
candidate blocks lower entries. -/
def pick_loop (cam : CameraP) (ray : Ray3) :
    List PickCandidate → List (ℕ × HitData)
  | [] => []
  | c :: rest =>
    if layersIntersect (layersOf c.render_layers) (layersOf cam.render_layers) then
      match hit_test cam ray c with
      | some hd =>
        if should_block c then [(c.entity, hd)]
        else (c.entity, hd) :: pick_loop cam ray rest
      | none => pick_loop cam ray rest
    else pick_loop cam ray rest

/-- Front-to-back order: world `z` descending. -/
def sortedFrontToBack (l : List PickCandidate) : Prop :=
  l.Pairwise fun u v => v.transform.translation.z ≤ u.transform.translation.z

instance (l : List PickCandidate) : Decidable (sortedFrontToBack l) := by
  unfold sortedFrontToBack; infer_instance

/-- Witness data: identity 3x3 matrix. -/
def idM3 : Mat3 := ⟨1, 0, 0, 0, 1, 0, 0, 0, 1⟩

/-- Witness data: the picking camera (identity transform, near plane 0). -/
def wCamP : CameraP := ⟨0, ⟨idM3, ⟨0, 0, 0⟩⟩, 0, none⟩

/-- Witness data: a ray from `(0, 0, 5)` straight down the `-z` axis. -/
def wRay : Ray3 := ⟨⟨0, 0, 5⟩, ⟨0, 0, -1⟩⟩

/-- Witness data: a blocking candidate (no `Pickable` component) whose unit
circle at the origin is hit by `wRay`. -/
def wCand1 : PickCandidate := ⟨1, ⟨idM3, ⟨0, 0, 0⟩⟩, 1, none, none⟩

/-- Witness data: a more distant candidate behind `wCand1`. -/
def wCand2 : PickCandidate := ⟨2, ⟨idM3, ⟨0, 0, -1⟩⟩, 1, none, none⟩

/-- Witness data: a non-blocking variant of `wCand1`
(`should_block_lower = false`). -/
def wCand3 : PickCandidate := ⟨3, ⟨idM3, ⟨0, 0, 0⟩⟩, 1, some ⟨false, true⟩, none⟩

/-- Witness data: the hit `wRay` scores on `wCand1`. -/
def wHd : HitData := ⟨0, 0, ⟨0, 0, 0⟩, ⟨0, 0, 1⟩⟩

end Picking

/-! ## Theorems -/

namespace Packing

theorem Vec2.add_x (v w : Vec2) : (v + w).x = v.x + w.x := rfl

theorem Vec2.add_y (v w : Vec2) : (v + w).y = v.y + w.y := rfl

theorem Vec2.sub_x (v w : Vec2) : (v - w).x = v.x - w.x := rfl

theorem Vec2.sub_y (v w : Vec2) : (v - w).y = v.y - w.y := rfl

theorem Vec2.neg_x (v : Vec2) : (-v).x = -v.x := rfl

theorem Vec2.neg_y (v : Vec2) : (-v).y = -v.y := rfl

theorem sum_map_addc {α : Type} (l : List α) (f : α → ℚ) (d : ℚ) :
    (l.map fun v => f v + d).sum = (l.map f).sum + l.length * d := by
  induction l with
  | nil => simp
  | cons a t ih => simp [ih]; ring

theorem length_local_vertices (es : EdgeVectors) :
    (local_vertices es).length = es.length := by
  simp [local_vertices, List.length_scanl]

theorem Vec2.ext' {v w : Vec2} (hx : v.x = w.x) (hy : v.y = w.y) : v = w := by
  cases v; cases w; simp_all

theorem calculate_centroid_map_add (vs : List Vec2) (d : Vec2)
    (h : vs.length ≠ 0) :
    calculate_centroid (vs.map fun v => v + d) = calculate_centroid vs + d := by
  have hn : ((vs.length : ℚ)) ≠ 0 := Nat.cast_ne_zero.mpr h
  apply Vec2.ext'
  · show (((vs.map fun v => v + d).map Vec2.x).sum) / _ = _
    have hfx : (Vec2.x ∘ fun v => v + d) = fun v => Vec2.x v + d.x := by
      funext v; simp [Vec2.add_x]
    simp only [List.map_map, hfx, sum_map_addc, List.length_map]
    show ((vs.map Vec2.x).sum + vs.length * d.x) / (vs.length : ℚ)
        = (vs.map Vec2.x).sum / (vs.length : ℚ) + d.x
    field_simp
    ring
  · show (((vs.map fun v => v + d).map Vec2.y).sum) / _ = _
    have hfy : (Vec2.y ∘ fun v => v + d) = fun v => Vec2.y v + d.y := by
      funext v; simp [Vec2.add_y]
    simp only [List.map_map, hfy, sum_map_addc, List.length_map]
    show ((vs.map Vec2.y).sum + vs.length * d.y) / (vs.length : ℚ)
        = (vs.map Vec2.y).sum / (vs.length : ℚ) + d.y
    field_simp
    ring

/-- C7: for every `ShapePosition` with a non-empty edge list, the centroid of
the vertex list returned by `vertices()` equals the translation exactly. -/
theorem vertices_centroid_eq_translation (s : ShapePosition) (h : s.edges ≠ []) :
    calculate_centroid s.vertices = s.translation := by
  have hne : (local_vertices s.edges).length ≠ 0 := by
    rw [length_local_vertices]
    simpa [List.length_eq_zero] using h
  have hfun : (fun v => v + s.translation - calculate_centroid (local_vertices s.edges))
      = fun v => v + (s.translation - calculate_centroid (local_vertices s.edges)) := by
    funext v
    apply Vec2.ext' <;> simp [Vec2.add_x, Vec2.add_y, Vec2.sub_x, Vec2.sub_y] <;> ring
  show calculate_centroid ((local_vertices s.edges).map
    fun v => v + s.translation - calculate_centroid (local_vertices s.edges))
      = s.translation
  rw [hfun, calculate_centroid_map_add _ _ hne]
  apply Vec2.ext' <;>
    simp [Vec2.add_x, Vec2.add_y, Vec2.sub_x, Vec2.sub_y]

/-- Witness for C7 at a concrete shape (4x4 square translated to `(2, 2)`). -/
theorem vertices_centroid_eq_translation_witness :
    calculate_centroid (ShapePosition.vertices ⟨⟨2, 2⟩, wRect44⟩) = ⟨2, 2⟩ :=
  vertices_centroid_eq_translation ⟨⟨2, 2⟩, wRect44⟩ (by with_unfolding_all decide)

theorem mergeStuck_step (a b : EdgeVectors) (σ : MState) (h : mergeStuck a b σ) :
    mergeStep a b σ = ⟨σ.i, σ.j, σ.iInc, σ.jInc, σ.cur, σ.result ++ [σ.cur]⟩ := by
  obtain ⟨_, h2, h3⟩ := h
  unfold mergeStep
  simp only [if_neg h2, if_neg h3]

theorem mergeStuck_preserved (a b : EdgeVectors) (σ : MState)
    (h : mergeStuck a b σ) : mergeStuck a b (mergeStep a b σ) := by
  rw [mergeStuck_step a b σ h]
  exact h

theorem mergeStuck_not_done (a b : EdgeVectors) (σ : MState)
    (h : mergeStuck a b σ) : ¬ mergeDone a b σ :=
  fun hd => hd h.1

theorem mergeRun_none_of_stuck (a b : EdgeVectors) :
    ∀ (fuel : ℕ) (σ : MState), mergeStuck a b σ → mergeRun a b fuel σ = none
  | 0, _, _ => rfl
  | fuel + 1, σ, h => by
    unfold mergeRun
    rw [if_neg (mergeStuck_not_done a b σ h)]
    exact mergeRun_none_of_stuck a b fuel (mergeStep a b σ) (mergeStuck_preserved a b σ h)

theorem mergeStuck_iterate (a b : EdgeVectors) (σ : MState) (h : mergeStuck a b σ) :
    ∀ t : ℕ, mergeStuck a b ((mergeStep a b)^[t] σ) := by
  intro t
  induction t with
  | zero => exact h
  | succ t ih =>
    rw [Function.iterate_succ_apply']
    exact mergeStuck_preserved a b _ ih

theorem mergeRun_none_reach (a b : EdgeVectors) :
    ∀ (fuel k : ℕ) (σ : MState),
      (∀ t : ℕ, t < k → ¬ mergeDone a b ((mergeStep a b)^[t] σ)) →
      mergeStuck a b ((mergeStep a b)^[k] σ) →
      mergeRun a b fuel σ = none := by
  intro fuel
  induction fuel with
  | zero => intro k σ _ _; rfl
  | succ fuel ih =>
    intro k σ hnd hst
    cases k with
    | zero => exact mergeRun_none_of_stuck a b (fuel + 1) σ hst
    | succ k =>
      unfold mergeRun
      rw [if_neg (by simpa using hnd 0 (Nat.succ_pos k))]
      refine ih k (mergeStep a b σ) ?_ ?_
      · intro t ht
        have := hnd (t + 1) (Nat.succ_lt_succ ht)
        rwa [Function.iterate_succ_apply] at this
      · have := hst
        rwa [Function.iterate_succ_apply] at this

/-- C6 (refuted: the claim is the spec's intent, the code loops forever on a
valid input): `stuckA` and `stuckB` are closed, strictly convex, CCW,
NaN-free polygons, yet the merge loop of `minkowski_sum` never terminates on
them — after 6 iterations it reaches a state (`i_inc = 2 < 3`, `j_inc = 3`,
cross product `-120 < 0`) from which no counter can ever advance, so
`minkowski_sum` returns no value for any amount of fuel. -/
theorem minkowski_merge_diverges :
    (isClosedConvexCCW stuckA = true ∧ isClosedConvexCCW stuckB = true) ∧
      ∀ fuel : ℕ, minkowski_sum fuel stuckA stuckB = none := by
  constructor
  · exact ⟨by with_unfolding_all rfl, by with_unfolding_all rfl⟩
  · intro fuel
    have hga : get_first_index (local_vertices stuckA) = some 2 := by
      with_unfolding_all rfl
    have hgb : get_first_index (local_vertices stuckB) = some 2 := by
      with_unfolding_all rfl
    unfold minkowski_sum
    rw [hga, hgb]
    have hrun : mergeRun stuckA stuckB fuel stuckInit = none := by
      refine mergeRun_none_reach stuckA stuckB fuel 6 stuckInit ?_ ?_
      · intro t ht
        interval_cases t <;> with_unfolding_all decide
      · with_unfolding_all decide
    show (mergeRun stuckA stuckB fuel stuckInit).map from_vertices = none
    rw [hrun]
    rfl

/-- C3: the concrete rectangle example holds — the Minkowski sum of the two
axis-aligned rectangles of sizes `(4,3)` and `(2,1)` is exactly the cyclic
edge list `[(6,0), (0,4), (-6,0), (0,-4)]` — but the universal `m + n` edge
count is refuted by the code: on the convex CCW closed pair
`stuckA`/`stuckB` (no collinear edges, so no merging), the merge loop never
finishes — here: still unfinished after 50 iterations; the C6 theorem below
proves it never finishes for any fuel — so no `m + n`-edge sum is ever
produced. -/
theorem minkowski_rect_example :
    minkowski_sum 20 (with_rect_size_rotation ⟨4, 3⟩ 1 0)
        (with_rect_size_rotation ⟨2, 1⟩ 1 0) =
      some [⟨6, 0⟩, ⟨0, 4⟩, ⟨-6, 0⟩, ⟨0, -4⟩] ∧
    (isClosedConvexCCW stuckA = true ∧ isClosedConvexCCW stuckB = true ∧
      minkowski_sum 50 stuckA stuckB = none) := by
  refine ⟨by with_unfolding_all rfl, by with_unfolding_all rfl,
    by with_unfolding_all rfl, by with_unfolding_all rfl⟩

theorem mem_fillCandidatesFor {fuel : ℕ} {placed_all : List ShapePosition}
    {s : ShapePosition} {off : ℚ} {div : Option ℕ} {p : ShapePosition}
    {csp : List ShapePosition} {r : ShapePosition}
    (h : fillCandidatesFor fuel placed_all s off div p = some csp) (hr : r ∈ csp) :
    ∀ q ∈ placed_all, r.is_overlapping (q.offset off) = false := by
  unfold fillCandidatesFor at h
  cases hmk : minkowski_sum fuel p.edges s.edges with
  | none => rw [hmk] at h; simp at h
  | some nfp =>
    rw [hmk] at h
    simp only [Option.map_some'] at h
    injection h with h
    subst h
    simp only [List.mem_map, List.mem_filter] at hr
    obtain ⟨v, ⟨hv, hpred⟩, hveq⟩ := hr
    rw [Bool.not_eq_true'] at hpred
    intro q hq
    have := (List.any_eq_false.mp hpred) q hq
    rw [← hveq]
    simpa using this

theorem mem_fillCandidatesAux {fuel : ℕ} {placed_all : List ShapePosition}
    {s : ShapePosition} {off : ℚ} {div : Option ℕ} :
    ∀ {l cs : List ShapePosition},
      fillCandidatesAux fuel placed_all s off div l = some cs →
      ∀ {r : ShapePosition}, r ∈ cs →
      ∃ p ∈ l, ∃ csp,
        fillCandidatesFor fuel placed_all s off div p = some csp ∧ r ∈ csp := by
  intro l
  induction l with
  | nil =>
    intro cs h r hr
    unfold fillCandidatesAux at h
    injection h with h
    subst h
    cases hr
  | cons p rest ih =>
    intro cs h r hr
    unfold fillCandidatesAux at h
    cases hfor : fillCandidatesFor fuel placed_all s off div p with
    | none => rw [hfor] at h; cases h
    | some csp =>
      rw [hfor] at h
      cases haux : fillCandidatesAux fuel placed_all s off div rest with
      | none => rw [haux] at h; cases h
      | some more =>
        rw [haux] at h
        injection h with h
        subst h
        rcases List.mem_append.mp hr with hl | hrm
        · exact ⟨p, List.mem_cons_self _ _, csp, hfor, hl⟩
        · obtain ⟨p', hp', csp', h1, h2⟩ := ih haux hrm
          exact ⟨p', List.mem_cons_of_mem _ hp', csp', h1, h2⟩

theorem fill_some_mem {fuel : ℕ} {placed : List ShapePosition} {s : ShapePosition}
    {off : ℚ} {div : Option ℕ} {r : ShapePosition}
    (h : fill fuel placed s off div = some r) :
    ∃ cands, fillCandidates fuel placed s off div = some cands ∧ r ∈ cands ∧
      ∀ c ∈ cands,
        dist2 r.translation s.translation ≤ dist2 c.translation s.translation := by
  unfold fill at h
  cases hfc : fillCandidates fuel placed s off div with
  | none => rw [hfc] at h; cases h
  | some cands =>
    rw [hfc] at h
    rw [Option.some_bind] at h
    have htrans : ∀ a b c : ShapePosition,
        distLE s.translation a.translation b.translation →
        distLE s.translation b.translation c.translation →
        distLE s.translation a.translation c.translation := by
      intro a b c
      simp only [distLE, decide_eq_true_eq]
      exact le_trans
    have htotal : ∀ a b : ShapePosition,
        distLE s.translation a.translation b.translation ||
          distLE s.translation b.translation a.translation := by
      intro a b
      simp only [distLE, Bool.or_eq_true, decide_eq_true_eq]
      exact le_total _ _
    have hsorted := List.sorted_mergeSort htrans htotal cands
    cases hms : cands.mergeSort
        (fun a b => distLE s.translation a.translation b.translation) with
    | nil => rw [hms] at h; cases h
    | cons r0 t =>
      rw [hms] at h
      simp only [List.head?_cons, Option.some.injEq] at h
      subst h
      rw [hms] at hsorted
      have hpair := List.pairwise_cons.mp hsorted
      refine ⟨cands, rfl, ?_, ?_⟩
      · have hr0 : r0 ∈ cands.mergeSort
            (fun a b => distLE s.translation a.translation b.translation) := by
          rw [hms]; exact List.mem_cons_self _ _
        exact List.mem_mergeSort.mp hr0
      · intro c hc
        have hcms : c ∈ cands.mergeSort
            (fun a b => distLE s.translation a.translation b.translation) :=
          List.mem_mergeSort.mpr hc
        rw [hms] at hcms
        rcases List.mem_cons.mp hcms with hceq | hct
        · subst hceq; exact le_refl _
        · have := hpair.1 c hct
          simpa only [distLE, decide_eq_true_eq] using this

/-- C1: whenever `fill` returns normally, the returned shape does not overlap
(at less than the gap) any placed shape: `is_overlapping` is `false` against
every placed shape outward-offset by the gap. -/
theorem fill_result_no_overlap (fuel : ℕ) (placed : List ShapePosition)
    (s : ShapePosition) (off : ℚ) (div : Option ℕ) (r : ShapePosition)
    (h : fill fuel placed s off div = some r) :
    ∀ p ∈ placed, r.is_overlapping (p.offset off) = false := by
  obtain ⟨cands, hfc, hmem, _⟩ := fill_some_mem h
  obtain ⟨p0, _, csp, hfor, hrcsp⟩ := mem_fillCandidatesAux hfc hmem
  exact mem_fillCandidatesFor hfor hrcsp

set_option maxRecDepth 100000 in
/-- Witness for C1: a concrete `fill` run (4x4 obstacle at the origin, 2x2
shape nominally at `(25, 25)`, gap 1, subdivision 2) whose result clears the
offset obstacle. -/
theorem fill_result_no_overlap_witness :
    ShapePosition.is_overlapping wResult (ShapePosition.offset wPlaced 1) = false :=
  fill_result_no_overlap 20 [wPlaced] wShape 1 (some 2) wResult
    (by with_unfolding_all rfl) wPlaced (List.mem_cons_self _ _)

/-- C2: the translation returned by `fill` is at distance (equivalently,
squared distance) to the nominal translation no larger than that of every
accepted candidate in the pool. -/
theorem fill_result_min_distance (fuel : ℕ) (placed : List ShapePosition)
    (s : ShapePosition) (off : ℚ) (div : Option ℕ) (r c : ShapePosition)
    (cands : List ShapePosition)
    (hf : fill fuel placed s off div = some r)
    (hc : fillCandidates fuel placed s off div = some cands)
    (hm : c ∈ cands) :
    dist2 r.translation s.translation ≤ dist2 c.translation s.translation ∧
      Real.sqrt ((dist2 r.translation s.translation : ℚ) : ℝ) ≤
        Real.sqrt ((dist2 c.translation s.translation : ℚ) : ℝ) := by
  obtain ⟨cands', hc', hmem', hall⟩ := fill_some_mem hf
  rw [hc] at hc'
  injection hc' with he
  subst he
  have hle := hall c hm
  exact ⟨hle, Real.sqrt_le_sqrt (by exact_mod_cast hle)⟩

set_option maxRecDepth 100000 in
/-- Witness for C2: in the concrete `fill` run of the C1 witness, the result
`(5, 0)` is no farther from `(25, 25)` than the accepted candidate
`(0, -5)`. -/
theorem fill_result_min_distance_witness :
    dist2 wResult.translation wShape.translation ≤
        dist2 wOther.translation wShape.translation ∧
      Real.sqrt ((dist2 wResult.translation wShape.translation : ℚ) : ℝ) ≤
        Real.sqrt ((dist2 wOther.translation wShape.translation : ℚ) : ℝ) :=
  fill_result_min_distance 20 [wPlaced] wShape 1 (some 2) wResult wOther wPool
    (by with_unfolding_all rfl) (by with_unfolding_all rfl)
    (by with_unfolding_all decide)

/-- C10: `is_overlapping` returns `false` exactly when some edge-normal axis
strictly separates the two projection ranges (`max_a < min_b` or `max_b <
min_a`); consequently two squares in zero-area edge contact are reported as
overlapping. -/
theorem is_overlapping_strict_separation :
    (∀ a b : ShapePosition, a.is_overlapping b = false ↔
      ∃ n ∈ satNormals a b,
        projMax a.vertices n < projMin b.vertices n ∨
        projMax b.vertices n < projMin a.vertices n) ∧
    ShapePosition.is_overlapping ⟨⟨0, 0⟩, wRect44⟩ ⟨⟨4, 0⟩, wRect44⟩ = true := by
  constructor
  · intro a b
    simp [ShapePosition.is_overlapping]
  · with_unfolding_all rfl

/-- C4: `fill` fails (models the `swap_remove(0)` panic) whenever the pooled
candidate list is empty, and in particular when `placed_shapes` is empty. -/
theorem fill_empty_candidates_none (fuel : ℕ) (placed : List ShapePosition)
    (s : ShapePosition) (off : ℚ) (div : Option ℕ)
    (h : fillCandidates fuel placed s off div = some [] ∨ placed = []) :
    fill fuel placed s off div = none := by
  rcases h with h | h
  · simp [fill, h]
  · subst h
    simp [fill, fillCandidates, fillCandidatesAux]

/-- Witness for C4: a non-empty placed set whose candidate pool is empty in
exact arithmetic (every no-fit-polygon corner candidate touches the offset
obstacle), so `fill` returns nothing. -/
theorem fill_empty_candidates_none_witness :
    fill 20 [wPlaced] wShape (1/10) none = none :=
  fill_empty_candidates_none 20 [wPlaced] wShape (1/10) none
    (Or.inl (by with_unfolding_all rfl))

end Packing

namespace PackingF

theorem cmpYXF_none_left {v w : Vec2F} (h : v.y = none) : cmpYXF v w = none := by
  unfold cmpYXF
  rw [h]
  rfl

theorem cmpYXF_none_right {v w : Vec2F} {p : ℚ} (hv : v.y = some p)
    (hw : w.y = none) : cmpYXF v w = none := by
  unfold cmpYXF
  rw [hv, hw]
  rfl

theorem firstIndexFoldF_nan :
    ∀ (rest : List Vec2F) (k : ℕ) (acc : ℕ × Vec2F), rest ≠ [] →
      (acc.2.y = none ∨ ∃ w ∈ rest, w.y = none) →
      firstIndexFoldF rest k acc = Except.error "NaN element in EdgeVectors" := by
  intro rest
  induction rest with
  | nil => intro _ _ hne _; exact absurd rfl hne
  | cons w rest' ih =>
    intro k acc _ hnan
    obtain ⟨bi, bv⟩ := acc
    by_cases hacc : bv.y = none
    · unfold firstIndexFoldF
      rw [cmpYXF_none_left hacc]
    · obtain ⟨p, hp⟩ := Option.ne_none_iff_exists'.mp hacc
      by_cases hw : w.y = none
      · unfold firstIndexFoldF
        rw [cmpYXF_none_right hp hw]
      · have hrest : ∃ v ∈ rest', v.y = none := by
          rcases hnan with h | ⟨v, hv, hvy⟩
          · exact absurd h hacc
          · rcases List.mem_cons.mp hv with hveq | hvm
            · subst hveq; exact absurd hvy hw
            · exact ⟨v, hvm, hvy⟩
        have hne' : rest' ≠ [] := by
          obtain ⟨v, hv, _⟩ := hrest
          exact List.ne_nil_of_mem hv
        unfold firstIndexFoldF
        cases hcy : cmpYXF bv w with
        | none => rfl
        | some o =>
          cases o with
          | lt => exact ih (k + 1) (bi, bv) hne' (Or.inr hrest)
          | eq => exact ih (k + 1) (bi, bv) hne' (Or.inr hrest)
          | gt => exact ih (k + 1) (k, w) hne' (Or.inr hrest)

theorem get_first_indexF_nan (vs : List Vec2F) (h2 : 2 ≤ vs.length)
    (hn : ∃ v ∈ vs, v.y = none) :
    get_first_indexF vs = Except.error "NaN element in EdgeVectors" := by
  match vs with
  | [] => simp at h2
  | [v] => simp at h2
  | v :: w :: rest =>
    unfold get_first_indexF
    apply firstIndexFoldF_nan (w :: rest) 1 (0, v) (by simp)
    rcases hn with ⟨u, hu, huy⟩
    rcases List.mem_cons.mp hu with hueq | hum
    · subst hueq; exact Or.inl huy
    · exact Or.inr ⟨u, hum, huy⟩

/-- C5, amended: whenever the bottom-left selection actually feeds a NaN to
its comparator — in particular whenever one input's local vertex list has at
least two entries and a NaN `y` coordinate — `minkowski_sum` panics with the
`"NaN element in EdgeVectors"` diagnostic (the right disjunct covers the
second input, reached only when the first selection succeeded). -/
theorem minkowski_nan_y_panics (a b : List Vec2F) (fuel : ℕ)
    (h : (2 ≤ (local_verticesF a).length ∧ ∃ v ∈ local_verticesF a, v.y = none) ∨
      ((∃ ia, get_first_indexF (local_verticesF a) = Except.ok ia) ∧
        2 ≤ (local_verticesF b).length ∧ ∃ v ∈ local_verticesF b, v.y = none)) :
    minkowski_sumF fuel a b = Except.error "NaN element in EdgeVectors" := by
  rcases h with ⟨h2, hn⟩ | ⟨⟨ia, hia⟩, h2, hn⟩
  · unfold minkowski_sumF
    rw [get_first_indexF_nan _ h2 hn]
  · unfold minkowski_sumF
    rw [hia, get_first_indexF_nan _ h2 hn]

/-- Witness for the amended C5: a concrete input with a NaN `y` coordinate on
which `minkowski_sum` panics with the diagnostic. -/
theorem minkowski_nan_y_panics_witness :
    minkowski_sumF 3 nanYA nanB = Except.error "NaN element in EdgeVectors" :=
  minkowski_nan_y_panics nanYA nanB 3
    (Or.inl ⟨by with_unfolding_all decide, by with_unfolding_all decide⟩)

theorem mergeStuckF_step (a b : List Vec2F) (σ : MStateF) (h : mergeStuckF a b σ) :
    mergeStepF a b σ = ⟨σ.i, σ.j, σ.iInc, σ.jInc, σ.cur, σ.result ++ [σ.cur]⟩ := by
  obtain ⟨_, h2, h3⟩ := h
  unfold mergeStepF
  simp only [if_neg h2, if_neg h3]

theorem mergeStuckF_preserved (a b : List Vec2F) (σ : MStateF)
    (h : mergeStuckF a b σ) : mergeStuckF a b (mergeStepF a b σ) := by
  rw [mergeStuckF_step a b σ h]
  exact h

theorem mergeRunF_none_of_stuck (a b : List Vec2F) :
    ∀ (fuel : ℕ) (σ : MStateF), mergeStuckF a b σ → mergeRunF a b fuel σ = none
  | 0, _, _ => rfl
  | fuel + 1, σ, h => by
    unfold mergeRunF
    rw [if_pos h.1]
    exact mergeRunF_none_of_stuck a b fuel (mergeStepF a b σ)
      (mergeStuckF_preserved a b σ h)

/-- C5 counterexample: `nanA` contains a NaN coordinate, yet `minkowski_sum`
never panics on `(nanA, nanB)` — the NaN sits in an `x` coordinate and the
two local vertices have distinct `y` coordinates, so the bottom-left
selection succeeds without comparing the NaN; the merge loop then spins
forever on a NaN cross product (neither IEEE guard holds), so nothing is
ever returned and no panic is ever raised. -/
theorem minkowski_nan_no_panic :
    hasNaN nanA = true ∧
      (∀ (fuel : ℕ) (msg : String),
        minkowski_sumF fuel nanA nanB ≠ Except.error msg) ∧
      ∀ fuel : ℕ, minkowski_sumF fuel nanA nanB = Except.ok none := by
  have hga : get_first_indexF (local_verticesF nanA) = Except.ok 0 := by
    with_unfolding_all rfl
  have hgb : get_first_indexF (local_verticesF nanB) = Except.ok 0 := by
    with_unfolding_all rfl
  have hok : ∀ fuel : ℕ, minkowski_sumF fuel nanA nanB = Except.ok none := by
    intro fuel
    unfold minkowski_sumF
    rw [hga, hgb]
    show Except.ok (Option.map from_verticesF (mergeRunF nanA nanB fuel
      ⟨0, 0, 0, 0, (idxF nanA 0).add (idxF nanB 0), []⟩)) = Except.ok none
    have hstuck : mergeStuckF nanA nanB
        ⟨0, 0, 0, 0, (idxF nanA 0).add (idxF nanB 0), []⟩ := by
      with_unfolding_all decide
    have hrun := mergeRunF_none_of_stuck nanA nanB fuel
      ⟨0, 0, 0, 0, (idxF nanA 0).add (idxF nanB 0), []⟩ hstuck
    rw [hrun]
    rfl
  refine ⟨by with_unfolding_all rfl, ?_, hok⟩
  intro fuel msg hcon
  rw [hok fuel] at hcon
  exact Except.noConfusion hcon

end PackingF

namespace CameraUtil

theorem Mat2.mul_id (m : Mat2) : m.mul ⟨1, 0, 0, 1⟩ = m := by
  obtain ⟨a, b, c, d⟩ := m
  simp [Mat2.mul]

theorem Mat2.mul_assoc (m n k : Mat2) : (m.mul n).mul k = m.mul (n.mul k) := by
  obtain ⟨a, b, c, d⟩ := m
  obtain ⟨e, f, g, h⟩ := n
  obtain ⟨i, j, k', l⟩ := k
  simp only [Mat2.mul, Mat2.mk.injEq]
  refine ⟨by ring, by ring, by ring, by ring⟩

theorem Mat2.mul_inv_cancel (m : Mat2) (h : m.det ≠ 0) :
    m.mul m.inv = ⟨1, 0, 0, 1⟩ := by
  obtain ⟨a, b, c, d⟩ := m
  simp only [Mat2.det] at h
  simp only [Mat2.mul, Mat2.inv, Mat2.det, Mat2.mk.injEq]
  refine ⟨?_, ?_, ?_, ?_⟩ <;> field_simp <;> ring

theorem Affine2.inv_apply_apply (A : Affine2) (h : A.linear.det ≠ 0)
    (p : Packing.Vec2) : A.inv.apply (A.apply p) = p := by
  obtain ⟨⟨a, b, c, d⟩, tx, ty⟩ := A
  obtain ⟨px, py⟩ := p
  simp only [Mat2.det] at h
  apply Packing.Vec2.ext' <;>
    · simp only [Affine2.apply, Affine2.inv, Mat2.inv, Mat2.mulVec, Mat2.det,
        Packing.Vec2.add_x, Packing.Vec2.add_y, Packing.Vec2.neg_x,
        Packing.Vec2.neg_y]
      field_simp
      ring

theorem Affine2.apply_inv_apply (A : Affine2) (h : A.linear.det ≠ 0)
    (p : Packing.Vec2) : A.apply (A.inv.apply p) = p := by
  obtain ⟨⟨a, b, c, d⟩, tx, ty⟩ := A
  obtain ⟨px, py⟩ := p
  simp only [Mat2.det] at h
  apply Packing.Vec2.ext' <;>
    · simp only [Affine2.apply, Affine2.inv, Mat2.inv, Mat2.mulVec, Mat2.det,
        Packing.Vec2.add_x, Packing.Vec2.add_y, Packing.Vec2.neg_x,
        Packing.Vec2.neg_y]
      field_simp
      ring

/-- C8: when the main and control cameras share transform and projection
(and both are invertible), `to_control` returns a transform whose planar
translation, rotation and scale equal those of the input, with the `z`
translation normalized to 0. -/
theorem to_control_identity_cameras (cam : Camera2) (camT : Affine2)
    (t : GlobalTransform2) (hT : camT.linear.det ≠ 0)
    (hP : cam.proj.linear.det ≠ 0) :
    to_control cam cam camT camT t =
      ⟨t.affine.translation, 0, t.rotation, t.scale⟩ := by
  have htrans : camT.apply (cam.proj.inv.apply
      (cam.proj.apply (camT.inv.apply t.affine.translation)))
        = t.affine.translation := by
    rw [Affine2.inv_apply_apply cam.proj hP, Affine2.apply_inv_apply camT hT]
  have hlin : ((t.affine.comp camT).comp camT.inv).linear = t.affine.linear := by
    show (t.affine.linear.mul camT.linear).mul camT.linear.inv = t.affine.linear
    rw [Mat2.mul_assoc, Mat2.mul_inv_cancel camT.linear hT, Mat2.mul_id]
  show Transform2.mk
      (camT.apply (cam.proj.inv.apply
        (cam.proj.apply (camT.inv.apply t.affine.translation)))) 0
      (decomposeRot ((t.affine.comp camT).comp camT.inv).linear)
      (decomposeScale ((t.affine.comp camT).comp camT.inv).linear) = _
  rw [htrans, hlin]
  rfl

/-- Witness for C8 at concrete invertible camera data. -/
theorem to_control_identity_cameras_witness :
    to_control wCam wCam wCamT wCamT wGT =
      ⟨wGT.affine.translation, 0, wGT.rotation, wGT.scale⟩ :=
  to_control_identity_cameras wCam wCamT wGT (by with_unfolding_all decide)
    (by with_unfolding_all decide)

end CameraUtil

namespace Picking

theorem pick_loop_stop (cam : CameraP) (ray : Ray3) (c : PickCandidate)
    (hlayer : layersIntersect (layersOf c.render_layers)
      (layersOf cam.render_layers) = true)
    (hhit : ∃ hd, hit_test cam ray c = some hd)
    (hb : should_block c = true) :
    ∀ (l1 rest : List PickCandidate),
      pick_loop cam ray (l1 ++ c :: rest) = pick_loop cam ray (l1 ++ [c]) := by
  obtain ⟨hd, hhit⟩ := hhit
  intro l1
  induction l1 with
  | nil =>
    intro rest
    simp only [List.nil_append]
    unfold pick_loop
    rw [hlayer, hhit]
    simp [hb]
  | cons a l1' ih =>
    intro rest
    simp only [List.cons_append]
    unfold pick_loop
    by_cases hla : layersIntersect (layersOf a.render_layers)
        (layersOf cam.render_layers) = true
    · rw [if_pos hla, if_pos hla]
      cases hta : hit_test cam ray a with
      | none => exact ih rest
      | some hda =>
        by_cases hba : should_block a = true
        · simp [hba]
        · simp only [hba, if_neg (by simp [hba] : ¬ should_block a = true)]
          rw [ih rest]
    · rw [if_neg hla, if_neg hla]
      exact ih rest

/-- C9: in the front-to-back candidate scan, a hit on a candidate that
blocks lower entries (absent `Pickable`, or `should_block_lower = true`)
ends the scan — no more distant candidate contributes a hit — while a hit
on a non-blocking candidate is accumulated and the scan continues behind
it. -/
theorem pick_loop_block_lower (cam : CameraP) (ray : Ray3)
    (l1 : List PickCandidate) (c : PickCandidate) (rest : List PickCandidate)
    (hd : HitData)
    (hsort : sortedFrontToBack (l1 ++ c :: rest))
    (hlayer : layersIntersect (layersOf c.render_layers)
      (layersOf cam.render_layers) = true)
    (hhit : hit_test cam ray c = some hd) :
    (should_block c = true →
      pick_loop cam ray (l1 ++ c :: rest) = pick_loop cam ray (l1 ++ [c])) ∧
    (should_block c = false →
      pick_loop cam ray (c :: rest) = (c.entity, hd) :: pick_loop cam ray rest) := by
  constructor
  · intro hb
    exact pick_loop_stop cam ray c hlayer ⟨hd, hhit⟩ hb l1 rest
  · intro hb
    unfold pick_loop
    rw [hlayer, hhit]
    simp only [hb, Bool.false_eq_true, if_false, List.cons.injEq, true_and]
    cases rest <;> rfl

/-- Witness for C9, blocking side: with the blocking candidate `wCand1` in
front, the more distant `wCand2` (which `wRay` would also hit) contributes
nothing. -/
theorem pick_loop_block_lower_witness :
    pick_loop wCamP wRay ([] ++ wCand1 :: [wCand2]) =
      pick_loop wCamP wRay ([] ++ [wCand1]) :=
  (pick_loop_block_lower wCamP wRay [] wCand1 [wCand2] wHd
    (by with_unfolding_all decide) (by with_unfolding_all rfl)
    (by with_unfolding_all rfl)).1 (by with_unfolding_all rfl)

end Picking
